import Mathlib

/-!
# Poll Response Analysis — verification of the data/aggregation core

Shallow embedding of `poll_analysis_app.py`:

* a pandas DataFrame of poll responses is modelled as a `List Row`, one
  `Row` per CSV record, with every cell present (the fixed schema has no
  null cells in scope);
* the inline filter chain of `main` (session, question, respondent, city)
  is `apply_filters`;
* `get_session_summary` and `get_question_totals` model the pandas
  `groupby` pipelines: group keys are the distinct key tuples (pandas
  `groupby` with `sort=True` lists them in ascending lexicographic order),
  a group is the sublist of rows carrying that key, and the final
  `sort_values("Webinar Date", ascending=False)` — whose default kind is
  the non-stable quicksort, so it promises only a date-descending
  permutation of its input, nothing about the order of ties — is modelled
  by one admissible such permutation (`insertionSort`); `SortValuesDesc`
  captures the full set of admissible results, and no theorem below relies
  on which admissible result the model picks;
* the percentage computation of the Question Totals tab is modelled over
  `ℚ` (the Python floats are modelled as exact rationals, and `round(1)`
  as rounding to the nearest tenth);
* `load_data` reads from an abstract file system: the optional content of
  `poll-responses.csv`; `pd.read_csv` raises `FileNotFoundError` exactly
  when the file is absent, which `main` catches and reports.
-/

namespace PollAnalysis

/-- One record of `poll-responses.csv`, with the columns the app uses:
Webinar Date (an 8-digit numeric date, inferred as an integer column),
Month Year, Webinar Title (Full), Name, City, State (combined), State,
Population Range, Question, Answer. -/
structure Row where
  webinarDate : Int
  monthYear : String
  webinarTitle : String
  name : String
  cityState : String
  state : String
  populationRange : String
  question : String
  answer : String
deriving DecidableEq, Repr

/-- A DataFrame of responses: an ordered list of rows. -/
abbrev Table := List Row

/-! ## Filter engine (the sidebar / Individual Responses filters of `main`) -/

/-- The four selectbox values of `main`: each is either a concrete value or
the corresponding "All ..." sentinel. -/
structure Filters where
  session : String
  question : String
  respondent : String
  city : String
deriving DecidableEq, Repr

/-- The filter chain of `main`: each selectbox value is compared against its
sentinel and, when different, the working table is restricted by an equality
comparison on the corresponding column, in this fixed order
(session, question, respondent, city). -/
def apply_filters (t : Table) (f : Filters) : Table :=
  let t1 := if f.session = "All Sessions" then t
    else t.filter fun r => decide (r.monthYear = f.session)
  let t2 := if f.question = "All Questions" then t1
    else t1.filter fun r => decide (r.question = f.question)
  let t3 := if f.respondent = "All Respondents" then t2
    else t2.filter fun r => decide (r.name = f.respondent)
  if f.city = "All Cities" then t3
  else t3.filter fun r => decide (r.cityState = f.city)

/-- A row satisfies every active constraint of a filter set: each constraint
is vacuous when its selectbox holds the "All ..." sentinel. -/
def Passes (f : Filters) (r : Row) : Prop :=
  (f.session ≠ "All Sessions" → r.monthYear = f.session) ∧
  (f.question ≠ "All Questions" → r.question = f.question) ∧
  (f.respondent ≠ "All Respondents" → r.name = f.respondent) ∧
  (f.city ≠ "All Cities" → r.cityState = f.city)

instance (f : Filters) (r : Row) : Decidable (Passes f r) := by
  unfold Passes; infer_instance

/-- No constraint of the filter set is active: all four selectboxes hold
their "All ..." sentinels. -/
def NoActive (f : Filters) : Prop :=
  f.session = "All Sessions" ∧ f.question = "All Questions" ∧
  f.respondent = "All Respondents" ∧ f.city = "All Cities"

instance (f : Filters) : Decidable (NoActive f) := by
  unfold NoActive; infer_instance

/-- One pandas boolean-mask equality filter `df[df[col] == value]`, for a
string column selected by `col`. -/
def eqFilter (col : Row → String) (v : String) (t : Table) : Table :=
  t.filter fun r => decide (col r = v)

/-! ## Grouping (pandas `groupby`)

A pandas `df.groupby(cols)` is modelled by a key function `key : Row → κ`:
the group of a key value `k` is the sublist of rows carrying that key, and
the group keys are the distinct key values occurring in the table, listed
in ascending order (pandas `groupby` defaults to `sort=True`). -/

/-- The group of key value `k`: the rows of `t` whose key is `k`. -/
def groupOf {κ : Type} [DecidableEq κ] (key : Row → κ) (t : Table) (k : κ) :
    Table :=
  t.filter fun r => decide (key r = k)

/-! ## Aggregator: session summary (`get_session_summary`) -/

/-- The grouping key of `get_session_summary`:
`(Webinar Date, Month Year, Webinar Title (Full))`. -/
def sessionKey (r : Row) : Int × String × String :=
  (r.webinarDate, r.monthYear, r.webinarTitle)

/-- Strict lexicographic order on character lists by code point. -/
def charListLT : List Char → List Char → Bool
  | [], [] => false
  | [], _ :: _ => true
  | _ :: _, [] => false
  | a :: as, b :: bs => if a < b then true else if b < a then false else charListLT as bs

/-- Strict code-point lexicographic order on strings, the order pandas uses
for string group keys. -/
def strLT (a b : String) : Prop := charListLT a.data b.data = true

/-- Reflexive code-point lexicographic order on strings. -/
def strLE (a b : String) : Prop := strLT a b ∨ a = b

instance (a b : String) : Decidable (strLT a b) := by unfold strLT; infer_instance

instance (a b : String) : Decidable (strLE a b) := by unfold strLE; infer_instance

/-- Ascending lexicographic order on session keys, the order in which pandas
`groupby` lists the group keys. -/
def keyLE (a b : Int × String × String) : Prop :=
  a.1 < b.1 ∨ (a.1 = b.1 ∧ (strLT a.2.1 b.2.1 ∨ (a.2.1 = b.2.1 ∧ strLE a.2.2 b.2.2)))

instance : DecidableRel keyLE := fun a b => by unfold keyLE; infer_instance

/-- One output row of `get_session_summary`: the session key columns plus
Unique Respondents, Unique Questions and Total Responses. -/
structure SummaryRow where
  webinarDate : Int
  monthYear : String
  webinarTitle : String
  uniqueRespondents : Nat
  uniqueQuestions : Nat
  totalResponses : Nat
deriving DecidableEq, Repr

/-- The session key columns of a summary row. -/
def summaryKey (s : SummaryRow) : Int × String × String :=
  (s.webinarDate, s.monthYear, s.webinarTitle)

/-- The aggregation of one session group: `Name` is aggregated with
`nunique` (count of distinct names), `Question` with `nunique`, and
`Answer` with `count`; every cell is present in this model, so the count of
`Answer` cells is the row count of the group. -/
def summaryOfKey (t : Table) (k : Int × String × String) : SummaryRow :=
  { webinarDate := k.1
    monthYear := k.2.1
    webinarTitle := k.2.2
    uniqueRespondents := ((groupOf sessionKey t k).map Row.name).dedup.length
    uniqueQuestions := ((groupOf sessionKey t k).map Row.question).dedup.length
    totalResponses := (groupOf sessionKey t k).length }

/-- The grouped-and-aggregated table of `get_session_summary` before the
final sort: one row per distinct session key of `t`, keys in ascending
order. -/
def sessionSummaryGrouped (t : Table) : List SummaryRow :=
  (List.insertionSort keyLE (t.map sessionKey).dedup).map (summaryOfKey t)

/-- Descending order on Webinar Date, the sort key of
`summary.sort_values("Webinar Date", ascending=False)`. -/
def summaryGE (a b : SummaryRow) : Prop :=
  b.webinarDate ≤ a.webinarDate

instance : DecidableRel summaryGE := fun a b => by unfold summaryGE; infer_instance

instance : IsTotal SummaryRow summaryGE :=
  ⟨fun a b => le_total b.webinarDate a.webinarDate⟩

instance : IsTrans SummaryRow summaryGE :=
  ⟨fun _ _ _ hab hbc => le_trans hbc hab⟩

/-- `get_session_summary`: group by the session key, aggregate, then sort by
Webinar Date in descending order (most recent first). pandas `sort_values`
defaults to the non-stable quicksort kind, so the program fixes only that
the result is some date-descending permutation of the grouped rows
(`SortValuesDesc` below); the model uses `insertionSort` as one admissible
such permutation, and no theorem relies on the tie order it happens to
produce. -/
def get_session_summary (t : Table) : List SummaryRow :=
  List.insertionSort summaryGE (sessionSummaryGrouped t)

/-- The contract of `summary.sort_values("Webinar Date", ascending=False)`
with its default unspecified (non-stable) sort kind: an admissible result
is any permutation of the input that is ordered by Webinar Date
descending. -/
def SortValuesDesc (l out : List SummaryRow) : Prop :=
  out.Perm l ∧ List.Sorted summaryGE out

instance (l out : List SummaryRow) : Decidable (SortValuesDesc l out) := by
  unfold SortValuesDesc; infer_instance

/-! ## Aggregator: question totals (`get_question_totals`) -/

/-- The grouping key of `get_question_totals`:
`(Webinar Date, Month Year, Webinar Title (Full), Question, Answer)`. -/
def totalsKey (r : Row) : Int × String × String × String × String :=
  (r.webinarDate, r.monthYear, r.webinarTitle, r.question, r.answer)

/-- Ascending lexicographic order on question-totals keys. -/
def totalsKeyLE (a b : Int × String × String × String × String) : Prop :=
  a.1 < b.1 ∨ (a.1 = b.1 ∧
    (strLT a.2.1 b.2.1 ∨ (a.2.1 = b.2.1 ∧
      (strLT a.2.2.1 b.2.2.1 ∨ (a.2.2.1 = b.2.2.1 ∧
        (strLT a.2.2.2.1 b.2.2.2.1 ∨ (a.2.2.2.1 = b.2.2.2.1 ∧
          strLE a.2.2.2.2 b.2.2.2.2)))))))

instance : DecidableRel totalsKeyLE := fun a b => by
  unfold totalsKeyLE; infer_instance

/-- One output row of `get_question_totals`: the five key columns plus the
Count column produced by `.size()`. -/
structure TotalsRow where
  webinarDate : Int
  monthYear : String
  webinarTitle : String
  question : String
  answer : String
  count : Nat
deriving DecidableEq, Repr

/-- The five key columns of a question-totals row. -/
def totalsRowKey (x : TotalsRow) : Int × String × String × String × String :=
  (x.webinarDate, x.monthYear, x.webinarTitle, x.question, x.answer)

/-- One aggregated group of `get_question_totals`: `.size()` counts the rows
of the group. -/
def totalsOfKey (t : Table) (k : Int × String × String × String × String) :
    TotalsRow :=
  { webinarDate := k.1
    monthYear := k.2.1
    webinarTitle := k.2.2.1
    question := k.2.2.2.1
    answer := k.2.2.2.2
    count := (groupOf totalsKey t k).length }

/-- The session restriction at the top of `get_question_totals`: Python
evaluates `if session_filter:` by truthiness, so both `None` and the empty
string leave the table untouched; any other string restricts to the rows
whose Month Year equals it. -/
def restrictSession (t : Table) (sf : Option String) : Table :=
  match sf with
  | none => t
  | some s => if s = "" then t else t.filter fun r => decide (r.monthYear = s)

/-- Descending order on Webinar Date for question-totals rows, the sort key
of `totals.sort_values("Webinar Date", ascending=False)`. -/
def totalsGE (a b : TotalsRow) : Prop :=
  b.webinarDate ≤ a.webinarDate

instance : DecidableRel totalsGE := fun a b => by unfold totalsGE; infer_instance

instance : IsTotal TotalsRow totalsGE :=
  ⟨fun a b => le_total b.webinarDate a.webinarDate⟩

instance : IsTrans TotalsRow totalsGE :=
  ⟨fun _ _ _ hab hbc => le_trans hbc hab⟩

/-- `get_question_totals`: optionally restrict to one session (Python
truthiness test on `session_filter`), group by the five-column key, count
group sizes, then sort by Webinar Date in descending order. -/
def get_question_totals (t : Table) (sf : Option String := none) :
    List TotalsRow :=
  let t2 := restrictSession t sf
  List.insertionSort totalsGE
    ((List.insertionSort totalsKeyLE (t2.map totalsKey).dedup).map
      (totalsOfKey t2))

/-! ## Loader (`load_data`) and the error path of `main` -/

/-- The one error kind of the app: `pd.read_csv` raising
`FileNotFoundError` because `poll-responses.csv` is absent. -/
inductive LoadError where
  | dataSourceNotFound
deriving DecidableEq, Repr

/-- `load_data`, with the file system abstracted as the optional content of
`poll-responses.csv`: `pd.read_csv` raises `FileNotFoundError` exactly when
the file is absent, and otherwise yields the full table. -/
def load_data (source : Option Table) : Except LoadError Table :=
  match source with
  | none => Except.error LoadError.dataSourceNotFound
  | some t => Except.ok t

/-- The load step of `main`: the `try`/`except FileNotFoundError` block
catches the error, reports it, and returns before any table is used, so
`main` proceeds with a table exactly when loading succeeded. -/
def mainLoadStep (source : Option Table) : Option Table :=
  match load_data source with
  | Except.error _ => none
  | Except.ok t => some t

/-! ## Percentages (Question Totals tab of `main`)

`question_data["Count"] / total * 100` rounded to one decimal place; the
Python floats are modelled as exact rationals, and `.round(1)` as rounding
to the nearest tenth. -/

/-- Round a rational to one decimal place. -/
def round1 (x : ℚ) : ℚ := (round (10 * x) : ℤ) / 10

/-- The Percentage column computed for one question subgroup: each count is
divided by the subgroup total and scaled to a percentage, rounded to one
decimal place. -/
def percentShares (counts : List Nat) : List ℚ :=
  counts.map fun c : ℕ => round1 ((c : ℚ) / (counts.sum : ℚ) * 100)

/-- The session key columns of a question-totals row, used by the Question
Totals tab to slice the totals per session. -/
def totalsSessionKey (x : TotalsRow) : Int × String × String :=
  (x.webinarDate, x.monthYear, x.webinarTitle)

/-- One `(session, question)` subgroup of the Question Totals tab: the rows
of the totals table carrying the given session key and question. -/
def subgroup (qt : List TotalsRow) (k : Int × String × String) (q : String) :
    List TotalsRow :=
  qt.filter fun x => decide (totalsSessionKey x = k ∧ x.question = q)

/-! ## Theorems: filter engine -/

/-- A conditional restriction step of `main`: skipping the restriction when
the condition holds is the same as filtering with a weakened predicate. -/
theorem stepFilter (t : Table) (c : Prop) [Decidable c] (p : Row → Bool) :
    (if c then t else t.filter p) = t.filter fun r => decide c || p r := by
  by_cases h : c <;> simp [h]

/-- The filter chain of `main` is one filter by the conjunction of the
active constraints. -/
theorem apply_filters_eq_filter (t : Table) (f : Filters) :
    apply_filters t f = t.filter fun r => decide (Passes f r) := by
  unfold apply_filters
  rw [stepFilter, stepFilter, stepFilter, stepFilter]
  simp only [List.filter_filter]
  apply List.filter_congr
  intro r _
  rw [Bool.eq_iff_iff]
  simp only [Bool.and_eq_true, Bool.or_eq_true, decide_eq_true_eq, Passes]
  tauto

/-- C1: for every table and filter set, the filter chain of `main` returns
exactly the rows satisfying every active constraint (each selectbox either
contributes an equality constraint or is an "All ..." sentinel no-op), and
when no constraint is active the input table is returned unchanged. -/
theorem apply_filters_spec (t : Table) (f : Filters) :
    apply_filters t f = (t.filter fun r => decide (Passes f r)) ∧
    (NoActive f → apply_filters t f = t) := by
  refine ⟨apply_filters_eq_filter t f, fun h => ?_⟩
  obtain ⟨h1, h2, h3, h4⟩ := h
  unfold apply_filters
  simp [h1, h2, h3, h4]

/-- A sample row used to instantiate the theorems at concrete inputs. -/
def wRow : Row :=
  { webinarDate := 20240115
    monthYear := "Jan 2024"
    webinarTitle := "W1"
    name := "Jane Doe"
    cityState := "Ithaca, NY"
    state := "NY"
    populationRange := "10k-50k"
    question := "Q1"
    answer := "A" }

/-- The all-sentinel filter set: every selectbox on its "All ..." choice. -/
def fAllSentinels : Filters :=
  { session := "All Sessions"
    question := "All Questions"
    respondent := "All Respondents"
    city := "All Cities" }

theorem apply_filters_spec_witness :
    NoActive fAllSentinels ∧ apply_filters [wRow] fAllSentinels = [wRow] :=
  ⟨by decide, (apply_filters_spec [wRow] fAllSentinels).2 (by decide)⟩

/-- C7: two pandas equality filters commute — applying them in either order
yields the same table — and their composition is the single filter by the
conjunction of the two constraints. -/
theorem eqFilter_comm (c₁ c₂ : Row → String) (v₁ v₂ : String) (t : Table) :
    eqFilter c₁ v₁ (eqFilter c₂ v₂ t) = eqFilter c₂ v₂ (eqFilter c₁ v₁ t) ∧
    eqFilter c₁ v₁ (eqFilter c₂ v₂ t) =
      t.filter fun r => decide (c₁ r = v₁ ∧ c₂ r = v₂) := by
  unfold eqFilter
  simp only [List.filter_filter]
  constructor
  · apply List.filter_congr
    intro r _
    by_cases e1 : c₁ r = v₁ <;> by_cases e2 : c₂ r = v₂ <;> simp [e1, e2]
  · apply List.filter_congr
    intro r _
    by_cases e1 : c₁ r = v₁ <;> by_cases e2 : c₂ r = v₂ <;> simp [e1, e2]

/-- C9: filtering on a constraint value that occurs nowhere in the column
returns the empty table (the filter is an ordinary total function, so no
error is possible). -/
theorem eqFilter_absent (c : Row → String) (v : String) (t : Table)
    (h : v ∉ t.map c) : eqFilter c v t = [] := by
  unfold eqFilter
  rw [List.filter_eq_nil_iff]
  intro r hr hb
  exact h (List.mem_map.mpr ⟨r, hr, of_decide_eq_true hb⟩)

theorem eqFilter_absent_witness :
    "John Roe" ∉ [wRow].map Row.name ∧ eqFilter Row.name "John Roe" [wRow] = [] :=
  ⟨by decide, eqFilter_absent Row.name "John Roe" [wRow] (by decide)⟩

/-! ## Theorems: grouping -/

theorem mem_groupOf {κ : Type} [DecidableEq κ] (key : Row → κ) (t : Table)
    (k : κ) (r : Row) : r ∈ groupOf key t k ↔ r ∈ t ∧ key r = k := by
  simp [groupOf]

/-- The size of one group is the number of occurrences of its key. -/
theorem length_groupOf {κ : Type} [DecidableEq κ] (key : Row → κ) (t : Table)
    (k : κ) : (groupOf key t k).length = (t.map key).count k := by
  rw [List.count_eq_countP, List.countP_map, groupOf,
    ← List.countP_eq_length_filter]
  rfl

/-- The group sizes over the distinct keys of a table sum to its row
count. -/
theorem sum_length_groupOf {κ : Type} [DecidableEq κ] (key : Row → κ)
    (t : Table) :
    ((t.map key).dedup.map fun k => (groupOf key t k).length).sum = t.length := by
  have h : ((t.map key).dedup.map fun k => (groupOf key t k).length) =
      (t.map key).dedup.map fun k => (t.map key).count k :=
    congrArg (fun f => List.map f (t.map key).dedup)
      (funext fun k => length_groupOf key t k)
  rw [h, List.sum_map_count_dedup_eq_length, List.length_map]

/-! ## Theorems: session summary -/

theorem summaryKey_summaryOfKey (t : Table) (k : Int × String × String) :
    summaryKey (summaryOfKey t k) = k := rfl

/-- The key columns of the grouped summary are the group keys in sorted
order. -/
theorem map_summaryKey_grouped (t : Table) :
    (sessionSummaryGrouped t).map summaryKey =
      List.insertionSort keyLE (t.map sessionKey).dedup := by
  unfold sessionSummaryGrouped
  rw [List.map_map]
  have h : summaryKey ∘ summaryOfKey t = id :=
    funext fun k => summaryKey_summaryOfKey t k
  rw [h, List.map_id]

/-- C2: `get_session_summary` emits exactly one row per distinct
(Webinar Date, Month Year, Webinar Title) triple of the input, and the row
carries the distinct-name count, the distinct-question count and the row
count of that session group. -/
theorem session_summary_groups (t : Table) :
    ((get_session_summary t).map summaryKey).Nodup ∧
    (∀ k, k ∈ (get_session_summary t).map summaryKey ↔ k ∈ t.map sessionKey) ∧
    ∀ s ∈ get_session_summary t,
      s.uniqueRespondents =
        ((groupOf sessionKey t (summaryKey s)).map Row.name).dedup.length ∧
      s.uniqueQuestions =
        ((groupOf sessionKey t (summaryKey s)).map Row.question).dedup.length ∧
      s.totalResponses = (groupOf sessionKey t (summaryKey s)).length := by
  have hp1 : (get_session_summary t).Perm (sessionSummaryGrouped t) :=
    List.perm_insertionSort _ _
  have hp2 : (List.insertionSort keyLE (t.map sessionKey).dedup).Perm
      (t.map sessionKey).dedup := List.perm_insertionSort _ _
  have hkeys : ((get_session_summary t).map summaryKey).Perm
      (t.map sessionKey).dedup :=
    (hp1.map summaryKey).trans (map_summaryKey_grouped t ▸ hp2)
  refine ⟨hkeys.nodup_iff.mpr (List.nodup_dedup _), fun k => ?_, ?_⟩
  · rw [hkeys.mem_iff, List.mem_dedup]
  · intro s hs
    have hs2 : s ∈ sessionSummaryGrouped t := hp1.mem_iff.mp hs
    unfold sessionSummaryGrouped at hs2
    rw [List.mem_map] at hs2
    obtain ⟨k, _, rfl⟩ := hs2
    exact ⟨rfl, rfl, rfl⟩

theorem session_summary_groups_witness :
    summaryOfKey [wRow] (20240115, "Jan 2024", "W1") ∈ get_session_summary [wRow] ∧
    (summaryOfKey [wRow] (20240115, "Jan 2024", "W1")).totalResponses =
      (groupOf sessionKey [wRow]
        (summaryKey (summaryOfKey [wRow] (20240115, "Jan 2024", "W1")))).length :=
  ⟨by decide, ((session_summary_groups [wRow]).2.2 _ (by decide)).2.2⟩

/-- C4: the Total Responses column of the session summary sums to the row
count of the input table. -/
theorem session_summary_total (t : Table) :
    ((get_session_summary t).map SummaryRow.totalResponses).sum = t.length := by
  have hp1 : (get_session_summary t).Perm (sessionSummaryGrouped t) :=
    List.perm_insertionSort _ _
  rw [(hp1.map SummaryRow.totalResponses).sum_eq]
  unfold sessionSummaryGrouped
  rw [List.map_map]
  have hp2 : (List.insertionSort keyLE (t.map sessionKey).dedup).Perm
      (t.map sessionKey).dedup := List.perm_insertionSort _ _
  rw [(hp2.map (SummaryRow.totalResponses ∘ summaryOfKey t)).sum_eq]
  exact sum_length_groupOf sessionKey t

/-- A second sample row sharing `wRow`'s Webinar Date but carrying a
different Webinar Title, so the two rows form two distinct session groups
with equal dates. -/
def wRow2 : Row :=
  { wRow with webinarTitle := "W2" }

/-- C6 fails as stated: `sort_values` with its default non-stable quicksort
kind promises only a date-descending permutation of the grouped rows, so on
a table with two equal-date sessions the reversal of the grouped order is
an admissible output of the program, and it does not retain the grouped
relative order of the equal-date rows. -/
theorem session_summary_tie_cex :
    SortValuesDesc (sessionSummaryGrouped [wRow, wRow2])
      [summaryOfKey [wRow, wRow2] (20240115, "Jan 2024", "W2"),
        summaryOfKey [wRow, wRow2] (20240115, "Jan 2024", "W1")] ∧
    ¬ [summaryOfKey [wRow, wRow2] (20240115, "Jan 2024", "W2"),
        summaryOfKey [wRow, wRow2] (20240115, "Jan 2024", "W1")].filter
          (fun s => decide (s.webinarDate = 20240115)) =
        (sessionSummaryGrouped [wRow, wRow2]).filter
          (fun s => decide (s.webinarDate = 20240115)) := by
  decide

/-- C6 (amended): the session summary is some permutation of the grouped
rows ordered by Webinar Date descending (most recent first); the relative
order of rows with equal dates is not specified by the program. -/
theorem session_summary_sorted_desc (t : Table) :
    SortValuesDesc (sessionSummaryGrouped t) (get_session_summary t) :=
  ⟨List.perm_insertionSort _ _, List.sorted_insertionSort _ _⟩

/-! ## Theorems: question totals -/

theorem totalsRowKey_totalsOfKey (t : Table)
    (k : Int × String × String × String × String) :
    totalsRowKey (totalsOfKey t k) = k := rfl

/-- Membership in the session restriction for a truthy (non-empty) label. -/
theorem mem_restrictSession (t : Table) (s : String) (hs : s ≠ "") (r : Row) :
    r ∈ restrictSession t (some s) ↔ r ∈ t ∧ r.monthYear = s := by
  simp [restrictSession, hs]

/-- C10: a falsy session filter — `None` or the empty string — leaves
`get_question_totals` unrestricted: the Python truthiness test means the
empty-string label never filters, even if empty-string labels occur in the
data. -/
theorem question_totals_falsy_filter (t : Table) :
    get_question_totals t (some "") = get_question_totals t none := rfl

/-- C3 fails as stated at `session_filter = some ""`: the code does not
restrict the table to rows whose Month Year equals the provided label, so a
row with a different label survives. -/
theorem question_totals_cex :
    ¬ ∀ x ∈ get_question_totals [wRow] (some ""), x.monthYear = "" := by
  decide

/-- C3 (amended): when the provided session label is truthy (non-empty),
every output row of `get_question_totals` carries that label; and for every
session filter, the output has exactly one row per distinct
(Webinar Date, Month Year, Webinar Title, Question, Answer) combination of
the restricted table, holding the occurrence count of that combination. -/
theorem question_totals_spec (t : Table) (sf : Option String)
    (hs : sf ≠ some "") :
    (∀ x ∈ get_question_totals t sf, ∀ s, sf = some s → x.monthYear = s) ∧
    ((get_question_totals t sf).map totalsRowKey).Nodup ∧
    (∀ k, k ∈ (get_question_totals t sf).map totalsRowKey ↔
      k ∈ (restrictSession t sf).map totalsKey) ∧
    ∀ x ∈ get_question_totals t sf,
      x.count = (groupOf totalsKey (restrictSession t sf) (totalsRowKey x)).length := by
  have hp1 : (get_question_totals t sf).Perm
      ((List.insertionSort totalsKeyLE
        ((restrictSession t sf).map totalsKey).dedup).map
        (totalsOfKey (restrictSession t sf))) := List.perm_insertionSort _ _
  have hp2 : (List.insertionSort totalsKeyLE
      ((restrictSession t sf).map totalsKey).dedup).Perm
      ((restrictSession t sf).map totalsKey).dedup := List.perm_insertionSort _ _
  have hmem : ∀ x ∈ get_question_totals t sf,
      ∃ k ∈ ((restrictSession t sf).map totalsKey).dedup,
        x = totalsOfKey (restrictSession t sf) k := by
    intro x hx
    have hx2 := hp1.mem_iff.mp hx
    rw [List.mem_map] at hx2
    obtain ⟨k, hk, rfl⟩ := hx2
    exact ⟨k, hp2.mem_iff.mp hk, rfl⟩
  have hkeys : ((get_question_totals t sf).map totalsRowKey).Perm
      ((restrictSession t sf).map totalsKey).dedup := by
    refine (hp1.map totalsRowKey).trans ?_
    rw [List.map_map]
    have h : totalsRowKey ∘ totalsOfKey (restrictSession t sf) = id :=
      funext fun k => totalsRowKey_totalsOfKey _ k
    rw [h, List.map_id]
    exact hp2
  refine ⟨?_, hkeys.nodup_iff.mpr (List.nodup_dedup _), fun k => ?_, ?_⟩
  · intro x hx s hsf
    subst hsf
    have hne : s ≠ "" := fun h => hs (by rw [h])
    obtain ⟨k, hk, rfl⟩ := hmem x hx
    rw [List.mem_dedup, List.mem_map] at hk
    obtain ⟨r, hr, rfl⟩ := hk
    have := (mem_restrictSession t s hne r).mp hr
    exact this.2
  · rw [hkeys.mem_iff, List.mem_dedup]
  · intro x hx
    obtain ⟨k, _, rfl⟩ := hmem x hx
    rfl

theorem question_totals_spec_witness :
    (some "Jan 2024" : Option String) ≠ some "" ∧
    ∀ x ∈ get_question_totals [wRow] (some "Jan 2024"),
      ∀ s, (some "Jan 2024" : Option String) = some s → x.monthYear = s :=
  ⟨by decide, (question_totals_spec [wRow] (some "Jan 2024") (by decide)).1⟩

/-! ## Theorems: loader -/

/-- C8: loading fails with `DataSourceNotFound` exactly when the backing
file is absent, loading a present file returns its full table, and the
`try`/`except` of `main` surfaces the failure by proceeding with no table
at all (never a partial one). -/
theorem load_data_spec :
    (∀ source : Option Table,
      load_data source = Except.error LoadError.dataSourceNotFound ↔
        source = none) ∧
    (∀ (source : Option Table) (t : Table),
      load_data source = Except.ok t ↔ source = some t) ∧
    mainLoadStep none = none ∧ ∀ t : Table, mainLoadStep (some t) = some t := by
  refine ⟨fun source => ?_, fun source t => ?_, rfl, fun t => rfl⟩
  · cases source <;> simp [load_data]
  · cases source <;> simp [load_data]

/-! ## Theorems: percentages -/

theorem abs_round1_sub (x : ℚ) : |round1 x - x| ≤ 1 / 20 := by
  unfold round1
  have h := abs_sub_round (10 * x)
  rw [abs_sub_comm] at h
  have h2 : (round (10 * x) : ℚ) / 10 - x = ((round (10 * x) : ℚ) - 10 * x) / 10 := by
    ring
  rw [h2, abs_div]
  have h3 : |(10 : ℚ)| = 10 := by norm_num
  rw [h3]
  linarith

theorem sum_map_round1_sub (xs : List ℚ) :
    |(xs.map round1).sum - xs.sum| ≤ (xs.length : ℚ) / 20 := by
  induction xs with
  | nil => simp
  | cons x xs ih =>
    simp only [List.map_cons, List.sum_cons, List.length_cons]
    have h1 := abs_round1_sub x
    calc |round1 x + (xs.map round1).sum - (x + xs.sum)|
        = |(round1 x - x) + ((xs.map round1).sum - xs.sum)| := by ring_nf
      _ ≤ |round1 x - x| + |(xs.map round1).sum - xs.sum| := abs_add _ _
      _ ≤ 1 / 20 + (xs.length : ℚ) / 20 := add_le_add h1 ih
      _ = ((xs.length + 1 : ℕ) : ℚ) / 20 := by push_cast; ring

/-- The unrounded percentage shares of a nonempty subgroup sum to exactly
100. -/
theorem sum_shares_exact (counts : List Nat) (h : 0 < counts.sum) :
    (counts.map fun c : ℕ => (c : ℚ) / (counts.sum : ℚ) * 100).sum = 100 := by
  have hN : (counts.sum : ℚ) ≠ 0 := by
    exact_mod_cast Nat.pos_iff_ne_zero.mp h
  have h1 : (counts.map fun c : ℕ => (c : ℚ) / (counts.sum : ℚ) * 100) =
      counts.map fun c : ℕ => (100 / (counts.sum : ℚ)) * (c : ℚ) := by
    refine congrArg (fun f => List.map f counts) (funext fun c => ?_)
    ring
  rw [h1, List.sum_map_mul_left, ← Nat.cast_list_sum]
  exact div_mul_cancel₀ 100 hN

/-- The rounded percentage shares of a nonempty subgroup sum to 100 up to
one twentieth per answer. -/
theorem percentShares_sum_near (counts : List Nat) (h : 0 < counts.sum) :
    |(percentShares counts).sum - 100| ≤ (counts.length : ℚ) / 10 := by
  have h1 := sum_map_round1_sub
    (counts.map fun c : ℕ => (c : ℚ) / (counts.sum : ℚ) * 100)
  rw [sum_shares_exact counts h, List.length_map, List.map_map] at h1
  have h2 : percentShares counts =
      counts.map (round1 ∘ fun c : ℕ => (c : ℚ) / (counts.sum : ℚ) * 100) := rfl
  rw [h2]
  have h0 : (0 : ℚ) ≤ (counts.length : ℚ) := Nat.cast_nonneg _
  linarith

/-- C5: in every (session, question) subgroup of the Question Totals tab
with a nonzero total, the Percentage column is count over subgroup total
times 100 rounded to one decimal, and the percentages sum to 100 within 0.1
per answer. -/
theorem subgroup_percentages (t : Table) (sf : Option String)
    (k : Int × String × String) (q : String)
    (h : 0 < ((subgroup (get_question_totals t sf) k q).map TotalsRow.count).sum) :
    percentShares ((subgroup (get_question_totals t sf) k q).map TotalsRow.count) =
      ((subgroup (get_question_totals t sf) k q).map TotalsRow.count).map
        (fun c : ℕ => round1 ((c : ℚ) /
          ((((subgroup (get_question_totals t sf) k q).map TotalsRow.count).sum : ℕ) : ℚ) * 100)) ∧
    |(percentShares ((subgroup (get_question_totals t sf) k q).map TotalsRow.count)).sum - 100| ≤
      ((((subgroup (get_question_totals t sf) k q).map TotalsRow.count).length : ℕ) : ℚ) / 10 :=
  ⟨rfl, percentShares_sum_near _ h⟩

/-- The counts of the sample subgroup used to instantiate the percentage
theorem. -/
def wCounts : List Nat :=
  (subgroup (get_question_totals [wRow] none)
    (20240115, "Jan 2024", "W1") "Q1").map TotalsRow.count

theorem subgroup_percentages_witness :
    0 < wCounts.sum ∧
    (percentShares wCounts =
      wCounts.map (fun c : ℕ => round1 ((c : ℚ) / ((wCounts.sum : ℕ) : ℚ) * 100)) ∧
    |(percentShares wCounts).sum - 100| ≤ ((wCounts.length : ℕ) : ℚ) / 10) :=
  ⟨by decide,
    subgroup_percentages [wRow] none (20240115, "Jan 2024", "W1") "Q1" (by decide)⟩

end PollAnalysis
